import Mathlib

/-!
Verification development for the concurrent hashing engine of
`quick-file-hasher-app.py` (functions `calculate_hash`, `hash_task`,
`results_to_txt`, `start_job` and the `HashResultRow.__str__` format).

The Python engine is shallowly embedded:
* events put on `update_queue` become the inductive `Event`;
* the filesystem seen by the enumerator (`Path.is_dir`, `Path.iterdir`,
  `Path.is_file`, `Path.stat`) is a function `String → PathKind`;
* the per-file behaviour seen by a hashing task at read time
  (`Path.stat`, `open`, successive `f.read` results) is a `FileIO` record;
* the shared counter `hash_task.bytes_read` is threaded explicitly and the
  thread pool is modelled by running the tasks in job order (the spec's
  atomic-counter abstraction); progress fractions are exact rationals;
* `threading.Event.is_set` observations are a boolean function of the
  observation index within each task;
* `hashlib` is external library code.  Modelled from the spec: a stand-in
  digest function that preserves the interface semantics (incremental
  update over the concatenated bytes, algorithm-dependent output,
  `hexdigest(n)` yielding `2*n` hex characters for extendable-output
  algorithms, `hexdigest()` yielding `2*digest_size` characters otherwise).
-/

namespace QuickFileHasher

/-! ### Model of `hashlib` (external library; modelled from the spec) -/

/-- The list `sorted(hashlib.algorithms_guaranteed)` as built for the drop-down at
line 367 of the source; `hashlib.new` raises `ValueError` outside it. -/
def algorithms_guaranteed : List String :=
  ["blake2b", "blake2s", "md5", "sha1", "sha224", "sha256", "sha384",
   "sha3_224", "sha3_256", "sha3_384", "sha3_512", "sha512",
   "shake_128", "shake_256"]

/-- Digest size in bytes of each fixed-output guaranteed algorithm
(`hashlib.new(a).digest_size`). -/
def digest_size (algo : String) : Nat :=
  if algo = "md5" then 16
  else if algo = "sha1" then 20
  else if algo = "sha224" then 28
  else if algo = "sha256" then 32
  else if algo = "sha384" then 48
  else if algo = "sha512" then 64
  else if algo = "sha3_224" then 28
  else if algo = "sha3_256" then 32
  else if algo = "sha3_384" then 48
  else if algo = "sha3_512" then 64
  else if algo = "blake2b" then 64
  else if algo = "blake2s" then 32
  else 0

/-- Does the character list `needle` occur at the start of `hay`? -/
def startsWithSeq : List Char → List Char → Bool
  | [], _ => true
  | _ :: _, [] => false
  | a :: as, b :: bs => a == b && startsWithSeq as bs

/-- Does the character list `needle` occur contiguously inside `hay`? -/
def containsSeq (needle : List Char) : List Char → Bool
  | [] => startsWithSeq needle []
  | l@(_ :: rest) => startsWithSeq needle l || containsSeq needle rest

/-- Python's `needle in hay` substring test on strings. -/
def substrIn (needle hay : String) : Bool :=
  containsSeq needle.toList hay.toList

/-- The dispatch condition `"shake" in algo` at line 610 of the source. -/
def shakeIn (algo : String) : Bool := substrIn "shake" algo

/-- Modelled from the spec: a seed mixing the algorithm identifier into the
stand-in digest, so distinct algorithms give distinct digest functions. -/
def algoSeed (algo : String) : Nat :=
  algo.toList.foldl (fun a c => (a * 131 + c.toNat) % 4294967296) 7

/-- Modelled from the spec: one mixing step of the stand-in compression
function (all arithmetic mod `2^32`). -/
def mixByte (a b : Nat) : Nat := (a * (a + 31) + b + 1) % 4294967296

/-- Modelled from the spec: the raw digest bytes of the stand-in hash —
`outLen` bytes, each depending on the algorithm and on every input byte in
order (standard incremental-hash semantics over the concatenated input). -/
def modelDigestBytes (algo : String) (outLen : Nat) (data : List Nat) : List Nat :=
  (List.range outLen).map fun i => (data.foldl mixByte (algoSeed algo + i)) % 256

/-- Lower-case hex character of `n % 16`. -/
def hexChar (n : Nat) : Char :=
  let d := n % 16
  if d < 10 then Char.ofNat (48 + d) else Char.ofNat (87 + d)

/-- Two-character lower-case hex rendering of a byte. -/
def byteHex (b : Nat) : List Char := [hexChar ((b / 16) % 16), hexChar (b % 16)]

/-- Lower-case hex string of a byte list. -/
def toHex (bs : List Nat) : String := ⟨(bs.map byteHex).flatten⟩

/-- Modelled from the spec: `hashlib`'s `hexdigest` producing `outLen`
output bytes rendered as `2*outLen` hex characters. -/
def modelHexdigest (algo : String) (outLen : Nat) (data : List Nat) : String :=
  toHex (modelDigestBytes algo outLen data)

/-- Line 610 of the source:
`hash_obj.hexdigest(shake_length) if "shake" in algo else hash_obj.hexdigest()`,
where the accumulator has absorbed `absorbed`. -/
def hexdigestCall (algo : String) (shakeLength : Nat) (absorbed : List Nat) : String :=
  if shakeIn algo then modelHexdigest algo shakeLength absorbed
  else modelHexdigest algo (digest_size algo) absorbed

/-! ### Events on `update_queue` -/

/-- A tuple put on `self.update_queue`: `("progress", fraction)`,
`("result", fname, hash_value, algo)` or `("error", fname, err, algo)`. -/
inductive Event where
  | progress (frac : ℚ)
  | result (fname : String) (hash_value : String) (algo : String)
  | error (fname : String) (err : String) (algo : String)
deriving DecidableEq, Repr

/-- Is the event a per-file outcome (a `Digest` or a `Failure`), as opposed
to a progress update? -/
def isOutcome : Event → Bool
  | Event.progress _ => false
  | _ => true

/-- Is the event a `("result", ...)` (Digest) event? -/
def isResult : Event → Bool
  | Event.result _ _ _ => true
  | _ => false

/-- Is the event a `("progress", ...)` event? -/
def isProgress : Event → Bool
  | Event.progress _ => true
  | _ => false

/-- Is the event an `("error", ...)` (Failure) event keyed on path `p`? -/
def isErrorFor (p : String) : Event → Bool
  | Event.error f _ _ => f == p
  | _ => false

/-- Is the event a `("result", ...)` (Digest) event keyed on path `p`? -/
def isResultFor (p : String) : Event → Bool
  | Event.result f _ _ => f == p
  | _ => false

/-- The per-file outcomes (Digest and Failure events) of an event list. -/
def outcomes (evs : List Event) : List Event := evs.filter isOutcome

/-- The fractions carried by the progress events of an event list, in
emission order. -/
def progressValues (evs : List Event) : List ℚ :=
  evs.filterMap fun e =>
    match e with
    | Event.progress q => some q
    | _ => none

/-! ### Filesystem model -/

/-- What the enumerator (lines 573-585) observes at one path:
`Path.is_dir` is true exactly for the two `dir` cases; `Path.iterdir`
yields `entries` or raises `msg`; for non-directories `Path.stat` yields a
size or raises.  `special` is a path that exists but is neither a directory
nor a regular file (FIFO, device node): `is_dir` and `is_file` are false
and `stat` succeeds. -/
inductive PathKind where
  | regular (size : Nat)
  | dirOk (entries : List String)
  | dirErr (msg : String)
  | special (size : Nat)
  | missing (msg : String)
deriving DecidableEq

/-- Python's `Path.is_file` of the looked-up path: true only for regular files. -/
def isRegularFile (fs : String → PathKind) (p : String) : Bool :=
  match fs p with
  | PathKind.regular _ => true
  | _ => false

/-- Python's `Path.stat().st_size` of a path known to be a regular file. -/
def regularSize (fs : String → PathKind) (p : String) : Nat :=
  match fs p with
  | PathKind.regular s => s
  | _ => 0

/-- What one hashing task observes about its file at read time:
`Path.stat` at line 593 (outside the `try`), `open` at line 599, the
successful `f.read` results in order, and how reading ends (`none` =
end-of-file, `some msg` = an `OSError` raised by a further read). -/
structure FileIO where
  statSize : Except String Nat
  openErr : Option String
  chunks : List (List Nat)
  ending : Option String

/-- Did the task's `file.stat()` call succeed? -/
def statOk : Except String Nat → Bool
  | Except.ok _ => true
  | Except.error _ => false

/-! ### `hash_task` (lines 590-617) -/

/-- The `while chunk := f.read(chunk_size)` loop of `hash_task`
(lines 600-613).  `k` is the index of the next `cancel_event.is_set()`
observation, `absorbed` the bytes fed to the accumulator so far, `b` the
current shared `hash_task.bytes_read`.  An empty read ends the loop and
emits the `("result", ...)` event; a cancellation observation returns with
no event; when `total = 0`, evaluating `bytes_read / total_bytes` raises
`ZeroDivisionError`, caught at line 614 and emitted as an error event. -/
def readLoop (algo : String) (total shakeLength : Nat) (path : String)
    (ending : Option String) (cobs : Nat → Bool) :
    List (List Nat) → List Nat → Nat → Nat → List Event × Nat
  | [], absorbed, _, b =>
    match ending with
    | none => ([Event.result path (hexdigestCall algo shakeLength absorbed) algo], b)
    | some m => ([Event.error path m algo], b)
  | c :: rest, absorbed, k, b =>
    if c.isEmpty then
      ([Event.result path (hexdigestCall algo shakeLength absorbed) algo], b)
    else if cobs k then ([], b)
    else
      let b2 := b + c.length
      if total = 0 then ([Event.error path "division by zero" algo], b2)
      else
        let r := readLoop algo total shakeLength path ending cobs rest (absorbed ++ c) (k + 1) b2
        (Event.progress (min ((b2 : ℚ) / (total : ℚ)) 1) :: r.1, r.2)

/-- The task body `hash_task` (lines 590-617) for one job: returns the events it puts on
the queue and the final shared `bytes_read`.  `cobs k` is the result of the
task's `k`-th `cancel_event.is_set()` call (index 0 at line 591, index `k ≥ 1`
at line 601 after the `k`-th read).  A failing `stat` (line 593) or an
unsupported algorithm (`hashlib.new`, line 597) raises outside the `try`
and so emits nothing; an `open` failure is caught and emits an error. -/
def hash_task (algo : String) (total shakeLength : Nat) (path : String)
    (env : FileIO) (cobs : Nat → Bool) (b : Nat) : List Event × Nat :=
  if cobs 0 then ([], b)
  else
    match env.statSize with
    | Except.error _ => ([], b)
    | Except.ok _ =>
      if algo ∈ algorithms_guaranteed then
        match env.openErr with
        | some m => ([Event.error path m algo], b)
        | none => readLoop algo total shakeLength path env.ending cobs env.chunks [] 1 b
      else ([], b)

/-! ### Path enumeration (lines 571-588) -/

/-- The contribution of one input path to `(total_bytes, jobs, events)`
(one iteration of the `for path in paths` loop, lines 573-585).  A
directory contributes its immediate regular-file entries; `iterdir` or
`stat` raising is caught and put as an error event keyed on the input
path; any non-directory whose `stat` succeeds — a regular file or a
special file — is added as a job. -/
def enumOne (fs : String → PathKind) (algo : String) (path : String) :
    Nat × List String × List Event :=
  match fs path with
  | PathKind.dirOk entries =>
    let files := entries.filter (isRegularFile fs)
    (files.foldl (fun a e => a + regularSize fs e) 0, files, [])
  | PathKind.dirErr m => (0, [], [Event.error path m algo])
  | PathKind.regular sz => (sz, [path], [])
  | PathKind.special sz => (sz, [path], [])
  | PathKind.missing m => (0, [], [Event.error path m algo])

/-- The enumeration loop of `calculate_hash` (lines 571-585): total bytes,
jobs in order, and the error events put during enumeration. -/
def enumerate_paths (fs : String → PathKind) (algo : String) :
    List String → Nat × List String × List Event
  | [] => (0, [], [])
  | p :: rest =>
    let h := enumOne fs algo p
    let t := enumerate_paths fs algo rest
    (h.1 + t.1, h.2.1 ++ t.2.1, h.2.2 ++ t.2.2)

/-! ### The run (lines 587-620) -/

/-- The pool run `list(executor.map(hash_task, jobs))` (lines 619-620) with the shared
`bytes_read` threaded through the tasks in job order; `cobs i` is task
`i`'s cancellation-observation function.  Returns each task's emitted
events. -/
def runTasks (algo : String) (total : Nat) (io : String → FileIO)
    (cobs : Nat → Nat → Bool) : List String → Nat → Nat → List (List Event)
  | [], _, _ => []
  | j :: rest, i, b =>
    let r := hash_task algo total 32 j (io j) (cobs i) b
    r.1 :: runTasks algo total io cobs rest (i + 1) r.2

/-- The observable result of one `calculate_hash` run. -/
structure RunOut where
  totalBytes : Nat
  jobs : List String
  immediateFull : Bool
  enumEvents : List Event
  taskEvents : List (List Event)

/-- The engine entry `calculate_hash` (lines 570-620): enumerate the input paths, set the
progress bar straight to 1.0 when `total_bytes == 0` (line 587-588,
recorded as `immediateFull`), then run one `hash_task` per job with
`shake_length` left at its default 32. -/
def calculate_hash (fs : String → PathKind) (io : String → FileIO)
    (cobs : Nat → Nat → Bool) (algo : String) (paths : List String) : RunOut :=
  let e := enumerate_paths fs algo paths
  { totalBytes := e.1
    jobs := e.2.1
    immediateFull := e.1 == 0
    enumEvents := e.2.2
    taskEvents := runTasks algo e.1 io cobs e.2.1 0 0 }

/-- Everything on `update_queue` for one run: enumeration events first,
then each task's events in job order. -/
def RunOut.allEvents (r : RunOut) : List Event :=
  r.enumEvents ++ r.taskEvents.flatten

/-! ### `results_to_txt` (lines 670-678) and `HashResultRow.__str__` -/

/-- The three fields a `HashResultRow` renders. -/
structure HashResultRow where
  file_name : String
  hash_value : String
  algo : String

/-- The row rendering `HashResultRow.__str__` (lines 142-143). -/
def rowStr (r : HashResultRow) : String :=
  r.file_name ++ ":" ++ r.hash_value ++ ":" ++ r.algo

/-- Python's `"\n".join`. -/
def joinNL : List String → String
  | [] => ""
  | [s] => s
  | s :: rest => s ++ "\n" ++ joinNL rest

/-- Python's `'-' * 40`. -/
def dashes40 : String := String.mk (List.replicate 40 '-')

/-- The report builder `results_to_txt` (lines 670-678), faithful to the local variable
`output` being assigned only under `if results_text:` — reading it when the
results section is empty raises `UnboundLocalError`. -/
def results_to_txt (results errors : List HashResultRow) (now : String) :
    Except String String :=
  let results_text := joinNL (results.map rowStr)
  let errors_text := joinNL (errors.map rowStr)
  let output1 : Option String :=
    if results_text ≠ "" then
      some ("Results - Saved on " ++ now ++ ":\n" ++ dashes40 ++ "\n" ++
        results_text ++ " " ++ (if errors_text ≠ "" then "\n\n" else "\n"))
    else none
  if errors_text ≠ "" then
    match output1 with
    | none => Except.error "UnboundLocalError"
    | some o => Except.ok (o ++ "Errors - Saved on " ++ now ++ ":\n" ++
        dashes40 ++ "\n" ++ errors_text ++ "\n")
  else
    match output1 with
    | none => Except.error "UnboundLocalError"
    | some o => Except.ok o

/-! ### Specification-side helper functions used to state the theorems -/

/-- The event `hash_task` emits when its read loop finishes consuming the
file: the `("result", ...)` Digest on end-of-file, the caught read error
otherwise. -/
def endingEvent (algo : String) (shakeLength : Nat) (path : String)
    (ending : Option String) (absorbed : List Nat) : Event :=
  match ending with
  | none => Event.result path (hexdigestCall algo shakeLength absorbed) algo
  | some m => Event.error path m algo

/-- The progress events an uncancelled task emits while consuming `chunks`,
starting from shared counter `b`: one event per chunk carrying
`min(bytes_read / total_bytes, 1.0)` after that chunk's increment. -/
def progressEvents (total : Nat) : Nat → List (List Nat) → List Event
  | _, [] => []
  | b, c :: rest =>
    Event.progress (min (((b + c.length : Nat) : ℚ) / (total : ℚ)) 1) ::
      progressEvents total (b + c.length) rest

/-- The fraction the task puts with each progress event:
`min(bytes_read / total_bytes, 1.0)` at line 605, as an exact rational. -/
def clampedFrac (total s2 : Nat) : ℚ := min ((s2 : ℚ) / (total : ℚ)) 1

/-- Strict prefix sums of a list starting from `b`:
`[b + l₁, b + l₁ + l₂, ...]` — the successive values of the shared
`bytes_read` counter. -/
def prefixSumsFrom (b : Nat) : List Nat → List Nat
  | [] => []
  | l :: ls => (b + l) :: prefixSumsFrom (b + l) ls

/-- Each job's outcomes when its task is run standalone (counter started at
0): the outcomes a task produces depend only on its own job, so this is the
per-job reference the scheduler's output is compared with. -/
def standaloneOutcomes (algo : String) (total : Nat) (io : String → FileIO)
    (cobs : Nat → Nat → Bool) : List String → Nat → List (List Event)
  | [], _ => []
  | j :: rest, i =>
    outcomes (hash_task algo total 32 j (io j) (cobs i) 0).1 ::
      standaloneOutcomes algo total io cobs rest (i + 1)

/-! ### Concrete fixtures for counterexamples and witnesses -/

/-- Fixture filesystem: two regular files enumerated as jobs. -/
def fsTwoFiles : String → PathKind := fun p =>
  if p = "a" then PathKind.regular 3
  else if p = "b" then PathKind.regular 3
  else PathKind.missing "no such file"

/-- Fixture read-time behaviour: file `a`'s `stat` at line 593 raises,
file `b` reads one chunk and then hits a read error. -/
def ioStatFail : String → FileIO := fun p =>
  if p = "a" then ⟨Except.error "stat failed", none, [], none⟩
  else ⟨Except.ok 3, none, [[1]], some "boom"⟩

/-- Fixture filesystem: one missing path and one 5-byte regular file. -/
def fsMissingPlusFile : String → PathKind := fun p =>
  if p = "f" then PathKind.regular 5
  else PathKind.missing "no such file"

/-- Fixture read-time behaviour: `f` holds the bytes `hello`. -/
def ioHello : String → FileIO := fun p =>
  if p = "f" then ⟨Except.ok 5, none, [[104, 101, 108, 108, 111]], none⟩
  else ⟨Except.error "gone", none, [], none⟩

/-- Fixture filesystem: a single empty regular file. -/
def fsEmptyFile : String → PathKind := fun p =>
  if p = "e" then PathKind.regular 0 else PathKind.missing "no such file"

/-- Fixture read-time behaviour: `e` is empty (its first read hits
end-of-file at once). -/
def ioEmptyFile : String → FileIO := fun p =>
  if p = "e" then ⟨Except.ok 0, none, [], none⟩
  else ⟨Except.error "gone", none, [], none⟩

/-- Fixture filesystem: `p` is a FIFO/device node — it exists, is neither a
directory nor a regular file, and `stat` succeeds with size 5. -/
def fsSpecial : String → PathKind := fun p =>
  if p = "p" then PathKind.special 5 else PathKind.missing "no such file"

/-- Fixture filesystem for the directory example: `d` holds one 5-byte
regular file and one sub-directory, and listing `dx` raises. -/
def fsDirExample : String → PathKind := fun p =>
  if p = "d" then PathKind.dirOk ["d/f", "d/sub"]
  else if p = "d/f" then PathKind.regular 5
  else if p = "d/sub" then PathKind.dirOk []
  else if p = "dx" then PathKind.dirErr "denied"
  else PathKind.missing "no such file"

/-- Fixture read-time behaviour: opening `a` fails, while `b` reads one
chunk and then hits a read error. -/
def ioOpenFail : String → FileIO := fun p =>
  if p = "a" then ⟨Except.ok 3, some "cannot open", [], none⟩
  else ⟨Except.ok 3, none, [[1]], some "boom"⟩

/-- Fixture read-time behaviour: one 2-byte file read in one chunk. -/
def ioTwoBytes : String → FileIO := fun p =>
  if p = "w" then ⟨Except.ok 2, none, [[7, 7]], none⟩
  else ⟨Except.error "gone", none, [], none⟩

/-- Fixture filesystem: one 2-byte regular file. -/
def fsTwoBytes : String → PathKind := fun p =>
  if p = "w" then PathKind.regular 2 else PathKind.missing "no such file"

/-- Fixture read-time behaviour: `f` holds the 10 bytes of `helloworld`,
read in two chunks. -/
def ioHelloWorld : String → FileIO := fun p =>
  if p = "f" then
    ⟨Except.ok 10, none, [[104, 101, 108, 108, 111], [119, 111, 114, 108, 100]], none⟩
  else ⟨Except.error "gone", none, [], none⟩

/-! ### Lemmas about enumeration -/

lemma enumerate_paths_append (fs : String → PathKind) (algo : String)
    (l1 l2 : List String) :
    enumerate_paths fs algo (l1 ++ l2) =
      ((enumerate_paths fs algo l1).1 + (enumerate_paths fs algo l2).1,
       (enumerate_paths fs algo l1).2.1 ++ (enumerate_paths fs algo l2).2.1,
       (enumerate_paths fs algo l1).2.2 ++ (enumerate_paths fs algo l2).2.2) := by
  induction l1 with
  | nil => simp [enumerate_paths]
  | cons p rest ih => simp [enumerate_paths, ih, Nat.add_assoc, List.append_assoc]

lemma enumerate_paths_cons (fs : String → PathKind) (algo p : String)
    (rest : List String) :
    enumerate_paths fs algo (p :: rest) =
      ((enumOne fs algo p).1 + (enumerate_paths fs algo rest).1,
       (enumOne fs algo p).2.1 ++ (enumerate_paths fs algo rest).2.1,
       (enumOne fs algo p).2.2 ++ (enumerate_paths fs algo rest).2.2) := rfl

/-- C7: a directory contributes exactly its immediate regular-file entries
as jobs (no events), and a directory whose listing fails contributes one
error event keyed on the directory (no jobs). -/
lemma enumerate_paths_dir (fs : String → PathKind) (algo : String)
    (xs ys : List String) (d : String) (entries : List String)
    (hd : fs d = PathKind.dirOk entries) :
    enumerate_paths fs algo (xs ++ d :: ys) =
      ((enumerate_paths fs algo xs).1 +
        ((entries.filter (isRegularFile fs)).foldl (fun a e => a + regularSize fs e) 0 +
          (enumerate_paths fs algo ys).1),
       (enumerate_paths fs algo xs).2.1 ++
         (entries.filter (isRegularFile fs) ++ (enumerate_paths fs algo ys).2.1),
       (enumerate_paths fs algo xs).2.2 ++ (enumerate_paths fs algo ys).2.2) := by
  rw [enumerate_paths_append, enumerate_paths_cons]
  simp [enumOne, hd]

/-! ### C6 and C7 theorems -/

/-- C6 (counterexample): an input path that is a FIFO/device node — it
exists, is neither a directory nor a regular file, and its `stat` succeeds
with size 5 — is added as a Job and produces no Failure, contradicting the
claim that enumeration adds no Job and reports exactly one Failure for it. -/
theorem C6_special_file_counterexample :
    enumerate_paths fsSpecial "sha256" ["p"] = (5, ["p"], []) := by decide

/-- C6 (amended): an input path whose `stat` raises (a missing path) yields
exactly one Failure keyed on it and no Job, with enumeration of the paths
before and after it unaffected; but an input path that is a special file
whose `stat` succeeds is added as a Job with its stat size and yields no
Failure. -/
theorem C6_nonfile_enumeration (fs : String → PathKind) (algo : String)
    (xs ys : List String) (pm ps m : String) (sz : Nat)
    (hm : fs pm = PathKind.missing m) (hs : fs ps = PathKind.special sz) :
    enumerate_paths fs algo (xs ++ pm :: ys) =
      ((enumerate_paths fs algo xs).1 + (enumerate_paths fs algo ys).1,
       (enumerate_paths fs algo xs).2.1 ++ (enumerate_paths fs algo ys).2.1,
       (enumerate_paths fs algo xs).2.2 ++
         (Event.error pm m algo :: (enumerate_paths fs algo ys).2.2))
    ∧ enumerate_paths fs algo (xs ++ ps :: ys) =
      ((enumerate_paths fs algo xs).1 + (sz + (enumerate_paths fs algo ys).1),
       (enumerate_paths fs algo xs).2.1 ++ (ps :: (enumerate_paths fs algo ys).2.1),
       (enumerate_paths fs algo xs).2.2 ++ (enumerate_paths fs algo ys).2.2) := by
  constructor
  · rw [enumerate_paths_append, enumerate_paths_cons]
    simp [enumOne, hm]
  · rw [enumerate_paths_append, enumerate_paths_cons]
    simp [enumOne, hs]

/-- C6 (witness): with a missing path between two other inputs — one
regular file, one special file — the missing path yields exactly one
Failure and no Job while both its neighbours are still enumerated. -/
theorem C6_nonfile_enumeration_witness :
    enumerate_paths (fun p => if p = "f" then PathKind.regular 5
        else if p = "s" then PathKind.special 7
        else PathKind.missing "gone") "sha256" (["f"] ++ "x" :: ["s"]) =
      (5 + 7, ["f"] ++ ["s"], [] ++ (Event.error "x" "gone" "sha256" :: [])) := by
  have h := (C6_nonfile_enumeration
    (fun p => if p = "f" then PathKind.regular 5
        else if p = "s" then PathKind.special 7
        else PathKind.missing "gone") "sha256" ["f"] ["s"] "x" "s" "gone" 7
    (by decide) (by decide)).1
  rw [h]; decide

/-- C7: enumeration of a directory input lists only its immediate entries:
each immediate entry that is a regular file is added as exactly one Job
(with its stat size summed into `total_bytes`), every other entry — in
particular each sub-directory — is silently skipped with no Job and no
Failure, and a listing error is reported as exactly one Failure keyed on
the directory path; enumeration of the surrounding inputs is unaffected. -/
theorem C7_directory_enumeration (fs : String → PathKind) (algo : String)
    (xs ys : List String) (d de m : String) (entries : List String)
    (hd : fs d = PathKind.dirOk entries) (he : fs de = PathKind.dirErr m) :
    enumerate_paths fs algo (xs ++ d :: ys) =
      ((enumerate_paths fs algo xs).1 +
        ((entries.filter (isRegularFile fs)).foldl (fun a e => a + regularSize fs e) 0 +
          (enumerate_paths fs algo ys).1),
       (enumerate_paths fs algo xs).2.1 ++
         (entries.filter (isRegularFile fs) ++ (enumerate_paths fs algo ys).2.1),
       (enumerate_paths fs algo xs).2.2 ++ (enumerate_paths fs algo ys).2.2)
    ∧ enumerate_paths fs algo (xs ++ de :: ys) =
      ((enumerate_paths fs algo xs).1 + (enumerate_paths fs algo ys).1,
       (enumerate_paths fs algo xs).2.1 ++ (enumerate_paths fs algo ys).2.1,
       (enumerate_paths fs algo xs).2.2 ++
         (Event.error de m algo :: (enumerate_paths fs algo ys).2.2)) := by
  constructor
  · rw [enumerate_paths_append, enumerate_paths_cons]
    simp [enumOne, hd]
  · rw [enumerate_paths_append, enumerate_paths_cons]
    simp [enumOne, he]

/-- C7 (witness): the spec's example — a directory containing one 5-byte
regular file and one sub-directory yields exactly one Job and no Failure,
while a directory whose listing raises yields one Failure and no Job. -/
theorem C7_directory_enumeration_witness :
    enumerate_paths fsDirExample "sha256" ["d"] = (5, ["d/f"], [])
    ∧ enumerate_paths fsDirExample "sha256" ["dx"] =
        (0, [], [Event.error "dx" "denied" "sha256"]) := by
  have h := C7_directory_enumeration fsDirExample "sha256" [] [] "d" "dx" "denied"
    ["d/f", "d/sub"] (by decide) (by decide)
  exact ⟨h.1.trans (by decide), h.2.trans (by decide)⟩

/-! ### Lemmas about events -/

lemma outcomes_nil : outcomes [] = [] := rfl

lemma outcomes_cons_progress (q : ℚ) (l : List Event) :
    outcomes (Event.progress q :: l) = outcomes l := by
  simp [outcomes, isOutcome]

lemma progressValues_append (l1 l2 : List Event) :
    progressValues (l1 ++ l2) = progressValues l1 ++ progressValues l2 := by
  simp [progressValues]

/-! ### Lemmas about `hash_task` -/

lemma outcomes_readLoop_counter (algo : String) (total sl : Nat) (path : String)
    (ending : Option String) (cobs : Nat → Bool) :
    ∀ (chunks : List (List Nat)) (absorbed : List Nat) (k b b2 : Nat),
      outcomes (readLoop algo total sl path ending cobs chunks absorbed k b).1 =
        outcomes (readLoop algo total sl path ending cobs chunks absorbed k b2).1 := by
  intro chunks
  induction chunks with
  | nil => intro absorbed k b b2; cases ending <;> rfl
  | cons c rest ih =>
    intro absorbed k b b2
    by_cases hc : c.isEmpty
    · simp [readLoop, hc]
    · by_cases hk : cobs k
      · simp [readLoop, hc, hk]
      · by_cases ht : total = 0
        · simp [readLoop, hc, hk, ht]
        · simp only [readLoop, hc, hk, ht, if_false, if_neg, Bool.false_eq_true,
            ite_false, outcomes_cons_progress]
          exact ih (absorbed ++ c) (k + 1) (b + c.length) (b2 + c.length)

lemma outcomes_hash_task_counter (algo : String) (total sl : Nat) (path : String)
    (env : FileIO) (cobs : Nat → Bool) (b b2 : Nat) :
    outcomes (hash_task algo total sl path env cobs b).1 =
      outcomes (hash_task algo total sl path env cobs b2).1 := by
  unfold hash_task
  by_cases h0 : cobs 0
  · simp [h0]
  · cases hs : env.statSize with
    | error m => simp [h0, hs]
    | ok s =>
      by_cases ha : algo ∈ algorithms_guaranteed
      · cases ho : env.openErr with
        | some m => simp [h0, hs, ha, ho]
        | none =>
          simp only [h0, hs, ha, ho, Bool.false_eq_true, ite_false, ite_true]
          exact outcomes_readLoop_counter algo total sl path env.ending cobs env.chunks [] 1 b b2
      · simp [h0, hs, ha]

/-- An algorithm outside the supported set raises `ValueError` in
`hashlib.new` at line 597, outside the `try`, so the task emits nothing
and leaves the shared counter unchanged. -/
lemma hash_task_unsupported (algo : String) (total sl : Nat) (path : String)
    (env : FileIO) (cobs : Nat → Bool) (b : Nat)
    (h : algo ∉ algorithms_guaranteed) :
    hash_task algo total sl path env cobs b = ([], b) := by
  unfold hash_task
  by_cases h0 : cobs 0
  · simp [h0]
  · simp only [h0, Bool.false_eq_true, ite_false, if_neg]
    cases env.statSize with
    | error m => rfl
    | ok s => simp [h]

/-- A task whose `file.stat()` at line 593 raises dies outside the `try`:
no event of any kind is emitted for that job. -/
lemma hash_task_statError (algo : String) (total sl : Nat) (path : String)
    (env : FileIO) (cobs : Nat → Bool) (b : Nat) (m : String)
    (h : env.statSize = Except.error m) :
    hash_task algo total sl path env cobs b = ([], b) := by
  unfold hash_task
  by_cases h0 : cobs 0
  · simp [h0]
  · simp [h0, h]

/-! ### Lemmas about `runTasks` -/

lemma runTasks_length (algo : String) (total : Nat) (io : String → FileIO)
    (cobs : Nat → Nat → Bool) :
    ∀ (js : List String) (i b : Nat),
      (runTasks algo total io cobs js i b).length = js.length := by
  intro js
  induction js with
  | nil => intro i b; rfl
  | cons j rest ih => intro i b; simp [runTasks, ih]

/-- The outcomes each task contributes to the queue are exactly its
standalone outcomes: they depend on its own job and cancellation
observations only, not on the shared counter value other tasks left
behind. -/
lemma runTasks_map_outcomes (algo : String) (total : Nat) (io : String → FileIO)
    (cobs : Nat → Nat → Bool) :
    ∀ (js : List String) (i b : Nat),
      (runTasks algo total io cobs js i b).map outcomes =
        standaloneOutcomes algo total io cobs js i := by
  intro js
  induction js with
  | nil => intro i b; rfl
  | cons j rest ih =>
    intro i b
    simp only [runTasks, standaloneOutcomes, List.map_cons, ih]
    rw [outcomes_hash_task_counter algo total 32 j (io j) (cobs i) _ 0]

lemma outcomes_append (l1 l2 : List Event) :
    outcomes (l1 ++ l2) = outcomes l1 ++ outcomes l2 := by
  simp [outcomes]

lemma outcomes_progressEvents (total : Nat) :
    ∀ (b : Nat) (chunks : List (List Nat)),
      outcomes (progressEvents total b chunks) = [] := by
  intro b chunks
  induction chunks generalizing b with
  | nil => rfl
  | cons c rest ih => simp [progressEvents, outcomes_cons_progress, ih]

/-- The read loop with no cancellation observed and a non-zero job-set
total: it consumes every chunk, emitting one progress event per chunk with
the clamped global fraction, adds every chunk length to the shared counter,
and ends with the Digest (on end-of-file) or the caught read error. -/
lemma readLoop_noCancel (algo : String) (total sl : Nat) (path : String)
    (ending : Option String) (cobs : Nat → Bool) :
    ∀ (chunks : List (List Nat)) (absorbed : List Nat) (k b : Nat),
      (∀ c ∈ chunks, c.isEmpty = false) →
      (∀ j, j < chunks.length → cobs (k + j) = false) →
      total ≠ 0 →
      readLoop algo total sl path ending cobs chunks absorbed k b =
        (progressEvents total b chunks ++
          [endingEvent algo sl path ending (absorbed ++ chunks.flatten)],
         b + (chunks.map List.length).sum) := by
  intro chunks
  induction chunks with
  | nil =>
    intro absorbed k b h1 h2 ht
    cases ending <;> simp [readLoop, endingEvent, progressEvents]
  | cons c rest ih =>
    intro absorbed k b h1 h2 ht
    have hc : c.isEmpty = false := h1 c (by simp)
    have hk : cobs k = false := by simpa using h2 0 (by simp)
    have h1r : ∀ c2 ∈ rest, c2.isEmpty = false :=
      fun c2 hc2 => h1 c2 (List.mem_cons_of_mem _ hc2)
    have h2r : ∀ j, j < rest.length → cobs (k + 1 + j) = false := by
      intro j hj
      have e : k + 1 + j = k + (j + 1) := by omega
      rw [e]
      exact h2 (j + 1) (by simpa using Nat.succ_lt_succ hj)
    simp only [readLoop, hc, hk, ht, Bool.false_eq_true, ite_false, if_neg]
    rw [ih (absorbed ++ c) (k + 1) (b + c.length) h1r h2r ht]
    simp [progressEvents, List.append_assoc, Nat.add_assoc]

/-- Running `hash_task` on a job whose stat and open succeed, under a supported
algorithm, no cancellation and a non-zero total. -/
lemma hash_task_noCancel (algo : String) (total sl : Nat) (path : String)
    (env : FileIO) (cobs : Nat → Bool) (b s : Nat)
    (hs : env.statSize = Except.ok s) (ha : algo ∈ algorithms_guaranteed)
    (ho : env.openErr = none)
    (h0 : cobs 0 = false)
    (h1 : ∀ c ∈ env.chunks, c.isEmpty = false)
    (h2 : ∀ j, j < env.chunks.length → cobs (1 + j) = false)
    (ht : total ≠ 0) :
    hash_task algo total sl path env cobs b =
      (progressEvents total b env.chunks ++
        [endingEvent algo sl path env.ending env.chunks.flatten],
       b + (env.chunks.map List.length).sum) := by
  unfold hash_task
  simp only [h0, hs, ha, ho, Bool.false_eq_true, ite_false, ite_true]
  rw [readLoop_noCancel algo total sl path env.ending cobs env.chunks [] 1 b h1 h2 ht]
  simp

/-- Running `hash_task` on a job whose file is empty at read time (the first read
hits end-of-file): one Digest of the empty byte sequence, no progress
event, no division — for any `total`, including 0. -/
lemma hash_task_emptyFile (algo : String) (total sl : Nat) (path : String)
    (env : FileIO) (cobs : Nat → Bool) (b s : Nat)
    (hs : env.statSize = Except.ok s) (ha : algo ∈ algorithms_guaranteed)
    (ho : env.openErr = none) (hch : env.chunks = []) (he : env.ending = none)
    (h0 : cobs 0 = false) :
    hash_task algo total sl path env cobs b =
      ([Event.result path (hexdigestCall algo sl []) algo], b) := by
  unfold hash_task
  simp [h0, hs, ha, ho, hch, he, readLoop]

/-- The outcome of an uncancelled task that reads its file to the end:
exactly one Digest event, carrying the digest of the concatenation of all
chunks read — the file's byte sequence. -/
lemma outcomes_hash_task_eof (algo : String) (total sl : Nat) (path : String)
    (env : FileIO) (cobs : Nat → Bool) (b s : Nat)
    (hs : env.statSize = Except.ok s) (ha : algo ∈ algorithms_guaranteed)
    (ho : env.openErr = none) (he : env.ending = none)
    (h0 : cobs 0 = false)
    (h1 : ∀ c ∈ env.chunks, c.isEmpty = false)
    (h2 : ∀ j, j < env.chunks.length → cobs (1 + j) = false)
    (ht : total ≠ 0 ∨ env.chunks = []) :
    outcomes (hash_task algo total sl path env cobs b).1 =
      [Event.result path (hexdigestCall algo sl env.chunks.flatten) algo] := by
  rcases ht with ht | ht
  · rw [hash_task_noCancel algo total sl path env cobs b s hs ha ho h0 h1 h2 ht]
    dsimp only
    rw [outcomes_append, outcomes_progressEvents]
    simp [he, endingEvent, outcomes, isOutcome]
  · rw [hash_task_emptyFile algo total sl path env cobs b s hs ha ho ht he h0]
    simp [ht, outcomes, isOutcome]

/-- A read loop that observes the cancellation signal at one of its
per-chunk checks returns silently: no Digest, no Failure. -/
lemma readLoop_cancelObserved (algo : String) (total sl : Nat) (path : String)
    (ending : Option String) (cobs : Nat → Bool) :
    ∀ (chunks : List (List Nat)) (absorbed : List Nat) (k b : Nat),
      (∀ c ∈ chunks, c.isEmpty = false) →
      total ≠ 0 →
      (∃ j, j < chunks.length ∧ cobs (k + j) = true) →
      outcomes (readLoop algo total sl path ending cobs chunks absorbed k b).1 = [] := by
  intro chunks
  induction chunks with
  | nil =>
    rintro absorbed k b h1 ht ⟨j, hj, hcj⟩
    exact absurd hj (by simp)
  | cons c rest ih =>
    rintro absorbed k b h1 ht ⟨j, hj, hcj⟩
    have hc : c.isEmpty = false := h1 c (by simp)
    by_cases hk : cobs k
    · simp [readLoop, hc, hk, outcomes]
    · have hj0 : j ≠ 0 := by
        rintro rfl
        rw [Nat.add_zero] at hcj
        exact absurd hcj (by simp [hk])
      obtain ⟨j2, rfl⟩ := Nat.exists_eq_succ_of_ne_zero hj0
      simp only [readLoop, hc, hk, ht, Bool.false_eq_true, ite_false, if_neg,
        outcomes_cons_progress]
      refine ih (absorbed ++ c) (k + 1) (b + c.length)
        (fun c2 hc2 => h1 c2 (List.mem_cons_of_mem _ hc2)) ht ⟨j2, ?_, ?_⟩
      · simpa using Nat.lt_of_succ_lt_succ (by simpa using hj)
      · have e : k + 1 + j2 = k + (j2 + 1) := by omega
        rw [e]
        exact hcj

/-- A task that observes the cancellation signal at any of the checks it
actually performs — before starting, or at a per-chunk check of its read
loop — emits no outcome of any kind. -/
lemma hash_task_cancelObserved (algo : String) (total sl : Nat) (path : String)
    (env : FileIO) (cobs : Nat → Bool) (b : Nat)
    (h1 : ∀ c ∈ env.chunks, c.isEmpty = false)
    (H : cobs 0 = true ∨
      (env.openErr = none ∧
        ((total ≠ 0 ∧ ∃ j, j < env.chunks.length ∧ cobs (1 + j) = true) ∨
          (cobs 1 = true ∧ env.chunks ≠ [])))) :
    outcomes (hash_task algo total sl path env cobs b).1 = [] := by
  by_cases h0 : cobs 0
  · unfold hash_task
    simp [h0, outcomes]
  · unfold hash_task
    cases hstat : env.statSize with
    | error m => simp [h0, hstat, outcomes]
    | ok s =>
      by_cases ha : algo ∈ algorithms_guaranteed
      · rcases H with H | ⟨ho, H⟩
        · exact absurd H (by simp [h0])
        · simp only [h0, hstat, ha, ho, Bool.false_eq_true, ite_false, ite_true]
          rcases H with ⟨ht, j, hj, hcj⟩ | ⟨hc1, hne⟩
          · exact readLoop_cancelObserved algo total sl path env.ending cobs
              env.chunks [] 1 b h1 ht ⟨j, hj, hcj⟩
          · match hch : env.chunks, hne with
            | c :: rest, _ =>
              have hc : c.isEmpty = false := by
                apply h1
                rw [hch]
                simp
              simp [readLoop, hc, hc1, outcomes]
      · simp [h0, hstat, ha, outcomes]

/-! ### C2: cancellation semantics -/

/-- C2: (a) if the job's cancellation checks observe the set signal —
before the job starts (`cobs 0`), or at a read-loop check that is actually
reached (a per-chunk check `cobs (1+j)` when the total is non-zero, or the
first check when the total is zero) — the task emits no Outcome of any
kind, neither Digest nor Failure; (b) a job whose read loop reaches
end-of-file with every performed check observing the signal unset emits
its Digest. -/
theorem C2_cancellation_semantics (algo : String) (total : Nat) (path : String)
    (env : FileIO) (cobs : Nat → Bool) (b : Nat)
    (h1 : ∀ c ∈ env.chunks, c.isEmpty = false) :
    ((cobs 0 = true ∨
        (env.openErr = none ∧
          ((total ≠ 0 ∧ ∃ j, j < env.chunks.length ∧ cobs (1 + j) = true) ∨
            (cobs 1 = true ∧ env.chunks ≠ [])))) →
      outcomes (hash_task algo total 32 path env cobs b).1 = [])
    ∧ (∀ s, env.statSize = Except.ok s → algo ∈ algorithms_guaranteed →
        env.openErr = none → env.ending = none →
        cobs 0 = false → (∀ j, j < env.chunks.length → cobs (1 + j) = false) →
        (total ≠ 0 ∨ env.chunks = []) →
        outcomes (hash_task algo total 32 path env cobs b).1 =
          [Event.result path (hexdigestCall algo 32 env.chunks.flatten) algo]) := by
  constructor
  · intro H
    exact hash_task_cancelObserved algo total 32 path env cobs b h1 H
  · intro s hs ha ho he h0 h2 ht
    exact outcomes_hash_task_eof algo total 32 path env cobs b s hs ha ho he h0 h1 h2 ht

/-- C2 (witness): a 3-byte job whose first read-loop check observes the
cancellation signal emits no outcome; an identical 2-byte job with the
signal never set emits its Digest. -/
theorem C2_cancellation_semantics_witness :
    outcomes (hash_task "sha256" 3 32 "f" ⟨Except.ok 3, none, [[1, 2, 3]], none⟩
        (fun k => k != 0) 0).1 = []
    ∧ outcomes (hash_task "sha256" 2 32 "w" ⟨Except.ok 2, none, [[7, 7]], none⟩
        (fun _ => false) 0).1 =
      [Event.result "w" (hexdigestCall "sha256" 32 [7, 7]) "sha256"] := by
  constructor
  · exact (C2_cancellation_semantics "sha256" 3 "f"
      ⟨Except.ok 3, none, [[1, 2, 3]], none⟩ (fun k => k != 0) 0 (by decide)).1
      (Or.inr ⟨rfl, Or.inr ⟨rfl, by decide⟩⟩)
  · exact (C2_cancellation_semantics "sha256" 2 "w"
      ⟨Except.ok 2, none, [[7, 7]], none⟩ (fun _ => false) 0 (by decide)).2
      2 rfl (by decide) rfl rfl rfl (fun j hj => rfl) (Or.inl (by decide))

/-! ### C9: digest semantics -/

lemma byteHex_length (b : Nat) : (byteHex b).length = 2 := rfl

lemma toHex_length (bs : List Nat) : (toHex bs).length = 2 * bs.length := by
  show ((bs.map byteHex).flatten).length = 2 * bs.length
  rw [List.length_flatten]
  induction bs with
  | nil => rfl
  | cons x rest ih =>
    simp only [List.map_cons, List.sum_cons, ih, byteHex_length, List.length_cons]
    omega

lemma modelHexdigest_length (algo : String) (n : Nat) (data : List Nat) :
    (modelHexdigest algo n data).length = 2 * n := by
  unfold modelHexdigest modelDigestBytes
  rw [toHex_length]
  simp

/-- C9: an uncancelled job read to end-of-file emits exactly one Digest,
whose hex string is the digest of the file's byte sequence (the
concatenation of the chunks read, independent of chunking); for an
extendable-output ("shake") algorithm the call passes the default output
length 32, so the hex string has 64 characters; for a fixed-output
algorithm the `shake_length` parameter is ignored and the digest is the
algorithm's standard hex digest of those bytes. -/
theorem C9_digest_semantics (algo : String) (total : Nat) (path : String)
    (env : FileIO) (cobs : Nat → Bool) (b s : Nat)
    (hs : env.statSize = Except.ok s) (ha : algo ∈ algorithms_guaranteed)
    (ho : env.openErr = none) (he : env.ending = none)
    (h0 : cobs 0 = false)
    (h1 : ∀ c ∈ env.chunks, c.isEmpty = false)
    (h2 : ∀ j, j < env.chunks.length → cobs (1 + j) = false)
    (ht : total ≠ 0 ∨ env.chunks = []) :
    outcomes (hash_task algo total 32 path env cobs b).1 =
      [Event.result path (hexdigestCall algo 32 env.chunks.flatten) algo]
    ∧ (shakeIn algo = true →
        (hexdigestCall algo 32 env.chunks.flatten).length = 64)
    ∧ (shakeIn algo = false → ∀ sl,
        hexdigestCall algo sl env.chunks.flatten =
          modelHexdigest algo (digest_size algo) env.chunks.flatten) := by
  refine ⟨outcomes_hash_task_eof algo total 32 path env cobs b s hs ha ho he h0 h1 h2 ht,
    ?_, ?_⟩
  · intro hsh
    unfold hexdigestCall
    rw [hsh]
    simp [modelHexdigest_length]
  · intro hsh sl
    unfold hexdigestCall
    rw [hsh]
    simp

/-- C9 (witness): the spec's example scenario — the 10-byte file
`helloworld` hashed with `sha256` yields exactly the model's standard
sha256 digest of those exact bytes (the `shake_length` parameter being
ignored), and hashed with `shake_128` yields a 64-hex-character string. -/
theorem C9_digest_semantics_witness :
    outcomes (hash_task "sha256" 10 32 "f"
        ⟨Except.ok 10, none, [[104, 101, 108, 108, 111], [119, 111, 114, 108, 100]], none⟩
        (fun _ => false) 0).1 =
      [Event.result "f"
        (modelHexdigest "sha256" (digest_size "sha256")
          [104, 101, 108, 108, 111, 119, 111, 114, 108, 100]) "sha256"]
    ∧ (hexdigestCall "shake_128" 32
        [104, 101, 108, 108, 111, 119, 111, 114, 108, 100]).length = 64 := by
  have henv : ∀ c ∈ ([[104, 101, 108, 108, 111], [119, 111, 114, 108, 100]] :
      List (List Nat)), c.isEmpty = false := by decide
  have h256 := C9_digest_semantics "sha256" 10 "f"
    ⟨Except.ok 10, none, [[104, 101, 108, 108, 111], [119, 111, 114, 108, 100]], none⟩
    (fun _ => false) 0 10 rfl (by decide) rfl rfl rfl henv (fun j hj => rfl)
    (Or.inl (by decide))
  have hshk := C9_digest_semantics "shake_128" 10 "f"
    ⟨Except.ok 10, none, [[104, 101, 108, 108, 111], [119, 111, 114, 108, 100]], none⟩
    (fun _ => false) 0 10 rfl (by decide) rfl rfl rfl henv (fun j hj => rfl)
    (Or.inl (by decide))
  constructor
  · rw [h256.1, h256.2.2 (by decide) 32]
    decide
  · exact hshk.2.1 (by decide)


/-! ### C10 and C5: empty files and zero-byte job sets -/

lemma flatten_singletonMap {α β : Type} (f : α → β) (l : List α) :
    (l.map (fun a => [f a])).flatten = l.map f := by
  induction l with
  | nil => rfl
  | cons x rest ih => simp [ih]

lemma progressValues_eq_nil_of_no_progress (evs : List Event) :
    (∀ e ∈ evs, isProgress e = false) → progressValues evs = [] := by
  induction evs with
  | nil => intro h; rfl
  | cons e rest ih =>
    intro h
    have he := h e (by simp)
    have hr := ih (fun e2 he2 => h e2 (List.mem_cons_of_mem _ he2))
    cases e with
    | progress q => simp [isProgress] at he
    | result f v a => simpa [progressValues] using hr
    | error f m a => simpa [progressValues] using hr

/-- The whole pool over jobs whose files are all empty at read time (with
open succeeding and no cancellation observed): each task puts exactly one
Digest of the empty byte sequence; the shared counter is never touched. -/
lemma runTasks_emptyFiles (algo : String) (total : Nat) (io : String → FileIO)
    (cobs : Nat → Nat → Bool) (ha : algo ∈ algorithms_guaranteed) :
    ∀ (js : List String) (i b : Nat),
      (∀ j ∈ js, statOk (io j).statSize = true ∧ (io j).openErr = none ∧
        (io j).chunks = [] ∧ (io j).ending = none) →
      (∀ i2, cobs i2 0 = false) →
      runTasks algo total io cobs js i b =
        js.map (fun j => [Event.result j (hexdigestCall algo 32 []) algo]) := by
  intro js
  induction js with
  | nil => intro i b hjs hc; rfl
  | cons j rest ih =>
    intro i b hjs hc
    obtain ⟨hstat, ho, hch, he⟩ := hjs j (by simp)
    obtain ⟨s, hs⟩ : ∃ s, (io j).statSize = Except.ok s := by
      cases h2 : (io j).statSize with
      | ok s => exact ⟨s, rfl⟩
      | error m => rw [h2] at hstat; exact absurd hstat (by simp [statOk])
    show (hash_task algo total 32 j (io j) (cobs i) b).1 ::
        runTasks algo total io cobs rest (i + 1)
          (hash_task algo total 32 j (io j) (cobs i) b).2 = _
    rw [hash_task_emptyFile algo total 32 j (io j) (cobs i) b s hs ha ho hch he (hc i)]
    simp only [List.map_cons]
    exact congrArg _ (ih (i + 1) b (fun j2 hj2 => hjs j2 (List.mem_cons_of_mem _ hj2)) hc)

/-- C10: a job whose file is empty at read time emits exactly one Digest —
the digest of the empty byte sequence — and no progress event; and a run
all of whose enumerated jobs are empty at read time (`total_bytes == 0`)
delivers one such Digest per job, emits no progress event from any task,
and every task event is a Digest (in particular no `ZeroDivisionError`
Failure: `bytes_read / total_bytes` is never evaluated). -/
theorem C10_empty_files (algo : String) (fs : String → PathKind)
    (io : String → FileIO) (cobs : Nat → Nat → Bool) (paths : List String)
    (total sl : Nat) (path : String) (env : FileIO) (c1 : Nat → Bool) (b s : Nat)
    (hs : env.statSize = Except.ok s) (ha : algo ∈ algorithms_guaranteed)
    (ho : env.openErr = none) (hch : env.chunks = []) (he : env.ending = none)
    (h0 : c1 0 = false)
    (hjobs : ∀ j ∈ (calculate_hash fs io cobs algo paths).jobs,
      statOk (io j).statSize = true ∧ (io j).openErr = none ∧
        (io j).chunks = [] ∧ (io j).ending = none)
    (hcobs : ∀ i, cobs i 0 = false)
    (htot : (calculate_hash fs io cobs algo paths).totalBytes = 0) :
    (hash_task algo total sl path env c1 b).1 =
      [Event.result path (hexdigestCall algo sl []) algo]
    ∧ (calculate_hash fs io cobs algo paths).taskEvents =
        (calculate_hash fs io cobs algo paths).jobs.map
          (fun j => [Event.result j (hexdigestCall algo 32 []) algo])
    ∧ progressValues (calculate_hash fs io cobs algo paths).taskEvents.flatten = []
    ∧ (∀ e ∈ (calculate_hash fs io cobs algo paths).taskEvents.flatten,
        isResult e = true) := by
  have htask : (calculate_hash fs io cobs algo paths).taskEvents =
      (calculate_hash fs io cobs algo paths).jobs.map
        (fun j => [Event.result j (hexdigestCall algo 32 []) algo]) :=
    runTasks_emptyFiles algo _ io cobs ha _ 0 0 hjobs hcobs
  refine ⟨?_, htask, ?_, ?_⟩
  · rw [hash_task_emptyFile algo total sl path env c1 b s hs ha ho hch he h0]
  · rw [htask, flatten_singletonMap]
    refine progressValues_eq_nil_of_no_progress _ ?_
    intro e hee
    obtain ⟨j, hjj, rfl⟩ := List.mem_map.mp hee
    rfl
  · intro e hee
    rw [htask, flatten_singletonMap] at hee
    obtain ⟨j, hjj, rfl⟩ := List.mem_map.mp hee
    rfl

/-- C10 (witness): the single empty file `e` — one Digest of the empty
byte sequence, no progress, every task event a Digest. -/
theorem C10_empty_files_witness :
    (hash_task "sha256" 0 32 "e" ⟨Except.ok 0, none, [], none⟩ (fun _ => false) 0).1 =
      [Event.result "e" (hexdigestCall "sha256" 32 []) "sha256"]
    ∧ (calculate_hash fsEmptyFile ioEmptyFile (fun _ _ => false) "sha256"
        ["e"]).taskEvents =
      (calculate_hash fsEmptyFile ioEmptyFile (fun _ _ => false) "sha256"
        ["e"]).jobs.map (fun j => [Event.result j (hexdigestCall "sha256" 32 []) "sha256"])
    ∧ progressValues (calculate_hash fsEmptyFile ioEmptyFile (fun _ _ => false) "sha256"
        ["e"]).taskEvents.flatten = []
    ∧ (∀ e ∈ (calculate_hash fsEmptyFile ioEmptyFile (fun _ _ => false) "sha256"
        ["e"]).taskEvents.flatten, isResult e = true) :=
  C10_empty_files "sha256" fsEmptyFile ioEmptyFile (fun _ _ => false) ["e"] 0 32 "e"
    ⟨Except.ok 0, none, [], none⟩ (fun _ => false) 0 0 rfl (by decide) rfl rfl rfl rfl
    (by decide) (fun i => rfl) (by decide)

/-- C5 (counterexample): a job set consisting of one empty regular file has
`total_bytes == 0` and immediately signals 100% progress, yet one Digest
outcome IS produced — the claim that no Digest outcomes are produced for a
zero-byte job set is false, and a hashing task is spawned for the file. -/
theorem C5_zero_total_counterexample :
    (calculate_hash fsEmptyFile ioEmptyFile (fun _ _ => false) "sha256"
        ["e"]).totalBytes = 0
    ∧ (calculate_hash fsEmptyFile ioEmptyFile (fun _ _ => false) "sha256"
        ["e"]).immediateFull = true
    ∧ ((calculate_hash fsEmptyFile ioEmptyFile (fun _ _ => false) "sha256"
        ["e"]).allEvents.filter isResult).length = 1 := by decide

/-- C5 (amended): when `total_bytes == 0` the progress bar is immediately
set to 1.0 (completion is signalled), and the enumeration Failures are
delivered — but hashing tasks are still spawned for every enumerated job;
when those files are empty at read time each task emits a Digest of the
empty byte sequence, so the Result Channel carries the enumeration
Failures followed by one Digest per job, not Failures only. -/
theorem C5_zero_total_still_spawns (fs : String → PathKind)
    (io : String → FileIO) (cobs : Nat → Nat → Bool) (algo : String)
    (paths : List String)
    (ha : algo ∈ algorithms_guaranteed)
    (hjobs : ∀ j ∈ (calculate_hash fs io cobs algo paths).jobs,
      statOk (io j).statSize = true ∧ (io j).openErr = none ∧
        (io j).chunks = [] ∧ (io j).ending = none)
    (hcobs : ∀ i, cobs i 0 = false)
    (htot : (calculate_hash fs io cobs algo paths).totalBytes = 0) :
    (calculate_hash fs io cobs algo paths).immediateFull = true
    ∧ (calculate_hash fs io cobs algo paths).taskEvents =
        (calculate_hash fs io cobs algo paths).jobs.map
          (fun j => [Event.result j (hexdigestCall algo 32 []) algo])
    ∧ (calculate_hash fs io cobs algo paths).allEvents =
        (calculate_hash fs io cobs algo paths).enumEvents ++
          (calculate_hash fs io cobs algo paths).jobs.map
            (fun j => Event.result j (hexdigestCall algo 32 []) algo) := by
  have htask : (calculate_hash fs io cobs algo paths).taskEvents =
      (calculate_hash fs io cobs algo paths).jobs.map
        (fun j => [Event.result j (hexdigestCall algo 32 []) algo]) :=
    runTasks_emptyFiles algo _ io cobs ha _ 0 0 hjobs hcobs
  refine ⟨?_, htask, ?_⟩
  · have h1 : (calculate_hash fs io cobs algo paths).immediateFull =
        ((calculate_hash fs io cobs algo paths).totalBytes == 0) := rfl
    rw [h1, htot]
    rfl
  · show (calculate_hash fs io cobs algo paths).enumEvents ++
      (calculate_hash fs io cobs algo paths).taskEvents.flatten = _
    rw [htask, flatten_singletonMap]

/-- C5 (witness): a missing path plus one empty file — `total_bytes == 0`,
progress signalled complete at once, and the queue carries the enumeration
Failure followed by the Digest of the empty file. -/
theorem C5_zero_total_still_spawns_witness :
    (calculate_hash fsEmptyFile ioEmptyFile (fun _ _ => false) "sha256"
        ["x", "e"]).immediateFull = true
    ∧ (calculate_hash fsEmptyFile ioEmptyFile (fun _ _ => false) "sha256"
        ["x", "e"]).taskEvents =
      (calculate_hash fsEmptyFile ioEmptyFile (fun _ _ => false) "sha256"
        ["x", "e"]).jobs.map
          (fun j => [Event.result j (hexdigestCall "sha256" 32 []) "sha256"])
    ∧ (calculate_hash fsEmptyFile ioEmptyFile (fun _ _ => false) "sha256"
        ["x", "e"]).allEvents =
      (calculate_hash fsEmptyFile ioEmptyFile (fun _ _ => false) "sha256"
        ["x", "e"]).enumEvents ++
        (calculate_hash fsEmptyFile ioEmptyFile (fun _ _ => false) "sha256"
          ["x", "e"]).jobs.map
            (fun j => Event.result j (hexdigestCall "sha256" 32 []) "sha256") :=
  C5_zero_total_still_spawns fsEmptyFile ioEmptyFile (fun _ _ => false) "sha256"
    ["x", "e"] (by decide) (by decide) (fun i => rfl) (by decide)

/-! ### C8: the progress invariant -/

lemma progressValues_cons_progress (q : ℚ) (l : List Event) :
    progressValues (Event.progress q :: l) = q :: progressValues l := by
  simp [progressValues]

lemma progressValues_cons_result (f v a : String) (l : List Event) :
    progressValues (Event.result f v a :: l) = progressValues l := by
  simp [progressValues]

lemma progressValues_cons_error (f m a : String) (l : List Event) :
    progressValues (Event.error f m a :: l) = progressValues l := by
  simp [progressValues]

/-- Every fraction the read loop ever emits is clamped by `min (_) 1.0`. -/
lemma progressValues_readLoop_le_one (algo : String) (total sl : Nat)
    (path : String) (ending : Option String) (cobs : Nat → Bool) :
    ∀ (chunks : List (List Nat)) (absorbed : List Nat) (k b : Nat) (q : ℚ),
      q ∈ progressValues (readLoop algo total sl path ending cobs chunks absorbed k b).1 →
      q ≤ 1 := by
  intro chunks
  induction chunks with
  | nil =>
    intro absorbed k b q hq
    cases ending <;> simp [readLoop, progressValues] at hq
  | cons c rest ih =>
    intro absorbed k b q hq
    by_cases hc : c.isEmpty
    · simp [readLoop, hc, progressValues] at hq
    · by_cases hk : cobs k
      · simp [readLoop, hc, hk, progressValues] at hq
      · by_cases ht : total = 0
        · simp [readLoop, hc, hk, ht, progressValues] at hq
        · simp only [readLoop, hc, hk, ht, Bool.false_eq_true, ite_false, if_neg,
            progressValues_cons_progress, List.mem_cons] at hq
          rcases hq with rfl | hq
          · exact min_le_right _ _
          · exact ih (absorbed ++ c) (k + 1) (b + c.length) q hq

lemma progressValues_hash_task_le_one (algo : String) (total sl : Nat)
    (path : String) (env : FileIO) (cobs : Nat → Bool) (b : Nat) (q : ℚ)
    (hq : q ∈ progressValues (hash_task algo total sl path env cobs b).1) :
    q ≤ 1 := by
  unfold hash_task at hq
  by_cases h0 : cobs 0
  · simp [h0, progressValues] at hq
  · rw [if_neg (by simp [h0])] at hq
    cases hstat : env.statSize with
    | error m => rw [hstat] at hq; simp [progressValues] at hq
    | ok s =>
      rw [hstat] at hq
      by_cases ha : algo ∈ algorithms_guaranteed
      · rw [if_pos ha] at hq
        cases ho : env.openErr with
        | some m => rw [ho] at hq; simp [progressValues] at hq
        | none =>
          rw [ho] at hq
          exact progressValues_readLoop_le_one algo total sl path env.ending cobs
            env.chunks [] 1 b q hq
      · rw [if_neg ha] at hq; simp [progressValues] at hq

lemma progressValues_runTasks_le_one (algo : String) (total : Nat)
    (io : String → FileIO) (cobs : Nat → Nat → Bool) :
    ∀ (js : List String) (i b : Nat) (q : ℚ),
      q ∈ progressValues (runTasks algo total io cobs js i b).flatten → q ≤ 1 := by
  intro js
  induction js with
  | nil => intro i b q hq; simp [runTasks, progressValues] at hq
  | cons j rest ih =>
    intro i b q hq
    rw [show runTasks algo total io cobs (j :: rest) i b =
      (hash_task algo total 32 j (io j) (cobs i) b).1 ::
        runTasks algo total io cobs rest (i + 1)
          (hash_task algo total 32 j (io j) (cobs i) b).2 from rfl] at hq
    rw [List.flatten_cons, progressValues_append, List.mem_append] at hq
    rcases hq with hq | hq
    · exact progressValues_hash_task_le_one algo total 32 j (io j) (cobs i) b q hq
    · exact ih (i + 1) _ q hq

/-- Enumeration puts only error events on the queue: no progress. -/
lemma progressValues_enumerate_paths (fs : String → PathKind) (algo : String) :
    ∀ paths : List String,
      progressValues (enumerate_paths fs algo paths).2.2 = [] := by
  intro paths
  induction paths with
  | nil => rfl
  | cons p rest ih =>
    rw [enumerate_paths_cons]
    dsimp only
    rw [progressValues_append, ih]
    cases h : fs p <;> simp [enumOne, h, progressValues]

/-- Every progress fraction any run ever emits is at most 1. -/
lemma progressValues_run_le_one (fs : String → PathKind) (io : String → FileIO)
    (cobs : Nat → Nat → Bool) (algo : String) (paths : List String) (q : ℚ)
    (hq : q ∈ progressValues (calculate_hash fs io cobs algo paths).allEvents) :
    q ≤ 1 := by
  rw [show (calculate_hash fs io cobs algo paths).allEvents =
    (enumerate_paths fs algo paths).2.2 ++
      (runTasks algo (enumerate_paths fs algo paths).1 io cobs
        (enumerate_paths fs algo paths).2.1 0 0).flatten from rfl] at hq
  rw [progressValues_append, progressValues_enumerate_paths, List.nil_append] at hq
  exact progressValues_runTasks_le_one algo _ io cobs _ 0 0 q hq

lemma prefixSumsFrom_ge : ∀ (ls : List Nat) (b : Nat), ∀ x ∈ prefixSumsFrom b ls, b ≤ x
  | [], _, x, hx => absurd hx (by simp [prefixSumsFrom])
  | l :: ls, b, x, hx => by
    rw [show prefixSumsFrom b (l :: ls) = (b + l) :: prefixSumsFrom (b + l) ls from rfl,
      List.mem_cons] at hx
    rcases hx with rfl | hx
    · omega
    · have := prefixSumsFrom_ge ls (b + l) x hx
      omega

lemma prefixSumsFrom_chain : ∀ (ls : List Nat) (b : Nat),
    List.Chain' (· ≤ ·) (prefixSumsFrom b ls)
  | [], _ => List.chain'_nil
  | l :: ls, b => by
    rw [show prefixSumsFrom b (l :: ls) = (b + l) :: prefixSumsFrom (b + l) ls from rfl]
    refine List.chain'_cons'.mpr ⟨?_, prefixSumsFrom_chain ls (b + l)⟩
    intro y hy
    exact prefixSumsFrom_ge ls (b + l) y (List.mem_of_mem_head? hy)

lemma prefixSumsFrom_append : ∀ (l1 l2 : List Nat) (b : Nat),
    prefixSumsFrom b (l1 ++ l2) =
      prefixSumsFrom b l1 ++ prefixSumsFrom (b + l1.sum) l2
  | [], l2, b => by simp [prefixSumsFrom]
  | l :: l1, l2, b => by
    rw [List.cons_append,
      show prefixSumsFrom b (l :: (l1 ++ l2)) =
        (b + l) :: prefixSumsFrom (b + l) (l1 ++ l2) from rfl,
      prefixSumsFrom_append l1 l2 (b + l)]
    simp [prefixSumsFrom, List.sum_cons, Nat.add_assoc]

lemma prefixSumsFrom_getLast? :
    ∀ (ls : List Nat), ls ≠ [] → ∀ b : Nat,
      (prefixSumsFrom b ls).getLast? = some (b + ls.sum)
  | [], h, _ => absurd rfl h
  | [l], _, b => by simp [prefixSumsFrom]
  | l :: l2 :: rest, _, b => by
    have ih := prefixSumsFrom_getLast? (l2 :: rest) (by simp) (b + l)
    rw [show prefixSumsFrom b (l :: l2 :: rest) =
      (b + l) :: (b + l + l2) :: prefixSumsFrom (b + l + l2) rest from rfl,
      List.getLast?_cons_cons]
    rw [show (b + l + l2) :: prefixSumsFrom (b + l + l2) rest =
      prefixSumsFrom (b + l) (l2 :: rest) from rfl, ih]
    simp [List.sum_cons]
    omega

lemma getLast?_map_eq {α β : Type} (f : α → β) :
    ∀ l : List α, (l.map f).getLast? = l.getLast?.map f
  | [] => rfl
  | [a] => rfl
  | a :: a2 :: rest => by
    rw [List.map_cons, List.map_cons, List.getLast?_cons_cons,
      List.getLast?_cons_cons, ← List.map_cons]
    exact getLast?_map_eq f (a2 :: rest)

lemma sum_flatten_nat : ∀ l : List (List Nat), l.flatten.sum = (l.map List.sum).sum
  | [] => rfl
  | x :: rest => by simp [sum_flatten_nat rest]

/-- The clamped fraction is monotone in the byte counter. -/
lemma fracMin_mono (total : Nat) {s s2 : Nat} (ht : total ≠ 0) (h : s ≤ s2) :
    clampedFrac total s ≤ clampedFrac total s2 := by
  have htq : (0 : ℚ) < total := by
    exact_mod_cast Nat.pos_of_ne_zero ht
  refine min_le_min ?_ le_rfl
  rw [div_le_div_iff_of_pos_right htq]
  exact_mod_cast h

/-- The fractions an uncancelled task emits are the clamped prefix sums of
its chunk lengths, shifted by the counter value it starts from. -/
lemma progressValues_progressEvents (total : Nat) :
    ∀ (chunks : List (List Nat)) (b : Nat),
      progressValues (progressEvents total b chunks) =
        (prefixSumsFrom b (chunks.map List.length)).map (clampedFrac total)
  | [], _ => rfl
  | c :: rest, b => by
    rw [show progressEvents total b (c :: rest) =
      Event.progress (min (((b + c.length : Nat) : ℚ) / (total : ℚ)) 1) ::
        progressEvents total (b + c.length) rest from rfl,
      progressValues_cons_progress,
      progressValues_progressEvents total rest (b + c.length)]
    rfl

/-- In a run with no cancellation, no failures and a non-zero total, the
sequence of emitted fractions is exactly the clamped prefix sums of all
chunk lengths across the jobs, in order. -/
lemma progressValues_runTasks_normal (algo : String) (total : Nat)
    (io : String → FileIO) (cobs : Nat → Nat → Bool) (ht : total ≠ 0)
    (ha : algo ∈ algorithms_guaranteed)
    (hcobs : ∀ i k, cobs i k = false) :
    ∀ (js : List String) (i b : Nat),
      (∀ j ∈ js, statOk (io j).statSize = true ∧ (io j).openErr = none ∧
        (io j).ending = none ∧ (∀ c ∈ (io j).chunks, c.isEmpty = false)) →
      progressValues (runTasks algo total io cobs js i b).flatten =
        (prefixSumsFrom b ((js.map fun j => (io j).chunks.map List.length).flatten)).map
          (clampedFrac total) := by
  intro js
  induction js with
  | nil => intro i b hjs; rfl
  | cons j rest ih =>
    intro i b hjs
    obtain ⟨hstat, ho, he, h1⟩ := hjs j (by simp)
    obtain ⟨s, hs⟩ : ∃ s, (io j).statSize = Except.ok s := by
      cases h2 : (io j).statSize with
      | ok s => exact ⟨s, rfl⟩
      | error m => rw [h2] at hstat; exact absurd hstat (by simp [statOk])
    rw [show runTasks algo total io cobs (j :: rest) i b =
      (hash_task algo total 32 j (io j) (cobs i) b).1 ::
        runTasks algo total io cobs rest (i + 1)
          (hash_task algo total 32 j (io j) (cobs i) b).2 from rfl]
    rw [hash_task_noCancel algo total 32 j (io j) (cobs i) b s hs ha ho (hcobs i 0) h1
      (fun j2 hj2 => hcobs i (1 + j2)) ht]
    dsimp only
    rw [List.flatten_cons, progressValues_append, progressValues_append,
      progressValues_progressEvents,
      ih (i + 1) _ (fun j2 hj2 => hjs j2 (List.mem_cons_of_mem _ hj2))]
    rw [List.map_cons, List.flatten_cons, prefixSumsFrom_append, List.map_append]
    have hend : progressValues [endingEvent algo 32 j (io j).ending
        (io j).chunks.flatten] = [] := by
      rw [he]
      rfl
    rw [hend, List.append_nil]

/-- C8: every emitted Progress fraction is clamped to at most 1.0 in every
run; and in a run with `total_bytes ≠ 0`, no cancellation, no failures and
the files' sizes at read time matching the enumerated total, the sequence
of emitted fractions is non-decreasing and its final element is exactly 1. -/
theorem C8_progress_invariant (fs : String → PathKind) (io : String → FileIO)
    (cobs : Nat → Nat → Bool) (algo : String) (paths : List String)
    (ha : algo ∈ algorithms_guaranteed)
    (hcobs : ∀ i k, cobs i k = false)
    (hjobs : ∀ j ∈ (calculate_hash fs io cobs algo paths).jobs,
      statOk (io j).statSize = true ∧ (io j).openErr = none ∧
        (io j).ending = none ∧ (∀ c ∈ (io j).chunks, c.isEmpty = false))
    (htot : (calculate_hash fs io cobs algo paths).totalBytes ≠ 0)
    (hsize : ((calculate_hash fs io cobs algo paths).jobs.map
        (fun j => ((io j).chunks.map List.length).sum)).sum =
      (calculate_hash fs io cobs algo paths).totalBytes) :
    (∀ (fs2 : String → PathKind) (io2 : String → FileIO)
        (cobs2 : Nat → Nat → Bool) (algo2 : String) (paths2 : List String),
      ∀ q ∈ progressValues (calculate_hash fs2 io2 cobs2 algo2 paths2).allEvents,
        q ≤ 1)
    ∧ List.Chain' (· ≤ ·)
        (progressValues (calculate_hash fs io cobs algo paths).allEvents)
    ∧ (progressValues (calculate_hash fs io cobs algo paths).allEvents).getLast? =
        some 1 := by
  have hchar : progressValues (calculate_hash fs io cobs algo paths).allEvents =
      (prefixSumsFrom 0 (((calculate_hash fs io cobs algo paths).jobs.map
        (fun j => (io j).chunks.map List.length)).flatten)).map
          (clampedFrac (calculate_hash fs io cobs algo paths).totalBytes) := by
    rw [show (calculate_hash fs io cobs algo paths).allEvents =
      (enumerate_paths fs algo paths).2.2 ++
        (runTasks algo (enumerate_paths fs algo paths).1 io cobs
          (enumerate_paths fs algo paths).2.1 0 0).flatten from rfl]
    rw [progressValues_append, progressValues_enumerate_paths, List.nil_append]
    exact progressValues_runTasks_normal algo _ io cobs htot ha hcobs _ 0 0 hjobs
  have hsum : (((calculate_hash fs io cobs algo paths).jobs.map
      (fun j => (io j).chunks.map List.length)).flatten).sum =
      (calculate_hash fs io cobs algo paths).totalBytes := by
    rw [sum_flatten_nat, List.map_map]
    exact hsize
  have hne : (((calculate_hash fs io cobs algo paths).jobs.map
      (fun j => (io j).chunks.map List.length)).flatten) ≠ [] := by
    intro hcon
    rw [hcon] at hsum
    exact htot hsum.symm
  refine ⟨fun fs2 io2 cobs2 algo2 paths2 q hq =>
    progressValues_run_le_one fs2 io2 cobs2 algo2 paths2 q hq, ?_, ?_⟩
  · rw [hchar]
    refine List.chain'_map_of_chain' _ ?_ (prefixSumsFrom_chain _ 0)
    intro a b hab
    exact fracMin_mono _ htot hab
  · rw [hchar, getLast?_map_eq, prefixSumsFrom_getLast? _ hne 0, hsum]
    have htq : ((calculate_hash fs io cobs algo paths).totalBytes : ℚ) ≠ 0 := by
      exact_mod_cast htot
    simp [clampedFrac, div_self htq]

/-- C8 (witness): a single 2-byte file read in one chunk — the emitted
fractions are `[1]`: clamped, non-decreasing, ending at exactly 1. -/
theorem C8_progress_invariant_witness :
    (∀ (fs2 : String → PathKind) (io2 : String → FileIO)
        (cobs2 : Nat → Nat → Bool) (algo2 : String) (paths2 : List String),
      ∀ q ∈ progressValues (calculate_hash fs2 io2 cobs2 algo2 paths2).allEvents,
        q ≤ 1)
    ∧ List.Chain' (· ≤ ·)
        (progressValues (calculate_hash fsTwoBytes ioTwoBytes (fun _ _ => false)
          "sha256" ["w"]).allEvents)
    ∧ (progressValues (calculate_hash fsTwoBytes ioTwoBytes (fun _ _ => false)
        "sha256" ["w"]).allEvents).getLast? = some 1 :=
  C8_progress_invariant fsTwoBytes ioTwoBytes (fun _ _ => false) "sha256" ["w"]
    (by decide) (fun i k => rfl) (by decide) (by decide) (by decide)

/-! ### C1: failure isolation -/

/-- C1 (counterexample): file `a` is enumerated as a job, but its `stat`
at line 593 of `hash_task` raises outside the `try`, so NO Failure outcome
is emitted for it — the claim that an I/O error during stat yields exactly
one Failure for that file is false.  File `b`, whose read raises inside
the `try`, does get exactly one Failure. -/
theorem C1_stat_failure_counterexample :
    (calculate_hash fsTwoFiles ioStatFail (fun _ _ => false) "sha256"
        ["a", "b"]).jobs = ["a", "b"]
    ∧ (calculate_hash fsTwoFiles ioStatFail (fun _ _ => false) "sha256"
        ["a", "b"]).allEvents.filter (isErrorFor "a") = []
    ∧ (calculate_hash fsTwoFiles ioStatFail (fun _ _ => false) "sha256"
        ["a", "b"]).allEvents.filter (isErrorFor "b") =
      [Event.error "b" "boom" "sha256"] := by decide

/-- C1 (amended): for a job whose `open` raises, or whose read raises
mid-stream (with no cancellation observed and a non-zero total), the task
emits exactly one Failure outcome for that file; and in every run each
task's delivered outcomes equal its standalone outcomes — a function of
its own job alone — so every job is attempted and no job's failure
suppresses another's outcome.  (A failing `stat` at line 593, by contrast,
raises outside the `try` and emits no Failure at all.) -/
theorem C1_open_read_failure_isolation (fs : String → PathKind)
    (io : String → FileIO) (cobs : Nat → Nat → Bool) (algo : String)
    (paths : List String) (j : Nat) (msg : String)
    (hj : j < (calculate_hash fs io cobs algo paths).jobs.length)
    (hstat : statOk (io ((calculate_hash fs io cobs algo paths).jobs[j])).statSize = true)
    (ha : algo ∈ algorithms_guaranteed)
    (hfail :
      ((io ((calculate_hash fs io cobs algo paths).jobs[j])).openErr = some msg ∧
        cobs j 0 = false) ∨
      ((io ((calculate_hash fs io cobs algo paths).jobs[j])).openErr = none ∧
        (io ((calculate_hash fs io cobs algo paths).jobs[j])).ending = some msg ∧
        (∀ c ∈ (io ((calculate_hash fs io cobs algo paths).jobs[j])).chunks,
          c.isEmpty = false) ∧
        (∀ k2, cobs j k2 = false) ∧
        (calculate_hash fs io cobs algo paths).totalBytes ≠ 0)) :
    outcomes (hash_task algo (calculate_hash fs io cobs algo paths).totalBytes 32
        ((calculate_hash fs io cobs algo paths).jobs[j])
        (io ((calculate_hash fs io cobs algo paths).jobs[j])) (cobs j) 0).1 =
      [Event.error ((calculate_hash fs io cobs algo paths).jobs[j]) msg algo]
    ∧ (calculate_hash fs io cobs algo paths).taskEvents.map outcomes =
        standaloneOutcomes algo (calculate_hash fs io cobs algo paths).totalBytes io
          cobs (calculate_hash fs io cobs algo paths).jobs 0 := by
  constructor
  · obtain ⟨s, hs⟩ : ∃ s,
        (io ((calculate_hash fs io cobs algo paths).jobs[j])).statSize = Except.ok s := by
      cases h2 : (io ((calculate_hash fs io cobs algo paths).jobs[j])).statSize with
      | ok s => exact ⟨s, rfl⟩
      | error m => rw [h2] at hstat; exact absurd hstat (by simp [statOk])
    rcases hfail with ⟨ho, h0⟩ | ⟨ho, hend, h1, hcall, ht⟩
    · unfold hash_task
      simp [h0, hs, ha, ho, outcomes, isOutcome]
    · rw [hash_task_noCancel algo _ 32 _ _ (cobs j) 0 s hs ha ho (hcall 0) h1
        (fun j2 hj2 => hcall (1 + j2)) ht]
      dsimp only
      rw [outcomes_append, outcomes_progressEvents]
      simp [hend, endingEvent, outcomes, isOutcome]
  · exact runTasks_map_outcomes algo _ io cobs _ 0 0

/-- C1 (witness): opening `a` fails — its task emits exactly the one
Failure `cannot open`, and the run's per-task outcomes coincide with the
standalone per-job outcomes. -/
theorem C1_open_read_failure_isolation_witness :
    outcomes (hash_task "sha256" 6 32 "a" (ioOpenFail "a") ((fun _ _ => false) 0) 0).1 =
      [Event.error "a" "cannot open" "sha256"]
    ∧ (calculate_hash fsTwoFiles ioOpenFail (fun _ _ => false) "sha256"
        ["a", "b"]).taskEvents.map outcomes =
      standaloneOutcomes "sha256"
        (calculate_hash fsTwoFiles ioOpenFail (fun _ _ => false) "sha256"
          ["a", "b"]).totalBytes ioOpenFail (fun _ _ => false)
        (calculate_hash fsTwoFiles ioOpenFail (fun _ _ => false) "sha256"
          ["a", "b"]).jobs 0 := by
  have h := C1_open_read_failure_isolation fsTwoFiles ioOpenFail (fun _ _ => false)
    "sha256" ["a", "b"] 0 "cannot open" (by decide) (by decide) (by decide)
    (Or.inl ⟨by decide, rfl⟩)
  exact ⟨h.1, h.2⟩

/-! ### C3: unsupported algorithm -/

/-- C3 (counterexample): with the unsupported algorithm identifier
`"bogus"`, the run still delivers the enumeration Failure for the missing
path `x` — the claim that no enumeration Failures are delivered for such a
job set is false.  (The 5-byte file `f` is enumerated as a job but its
task emits nothing.) -/
theorem C3_unsupported_counterexample :
    (calculate_hash fsMissingPlusFile ioHello (fun _ _ => false) "bogus"
        ["x", "f"]).enumEvents = [Event.error "x" "no such file" "bogus"]
    ∧ (calculate_hash fsMissingPlusFile ioHello (fun _ _ => false) "bogus"
        ["x", "f"]).jobs = ["f"] := by decide

/-- C3 (amended): an unsupported algorithm identifier is not validated at
job-set start: enumeration runs in full and its Failures are delivered on
the Result Channel; every hashing task then raises `ValueError` at
`hashlib.new` (line 597, outside the `try`) before emitting anything, so no
Digest and no per-file hashing Failure is produced — the queue carries
exactly the enumeration events. -/
theorem C3_unsupported_no_start_validation (fs : String → PathKind)
    (io : String → FileIO) (cobs : Nat → Nat → Bool) (algo : String)
    (paths : List String) (h : algo ∉ algorithms_guaranteed) :
    (calculate_hash fs io cobs algo paths).taskEvents.flatten = []
    ∧ (calculate_hash fs io cobs algo paths).allEvents =
        (calculate_hash fs io cobs algo paths).enumEvents := by
  have key : ∀ (js : List String) (i b : Nat),
      runTasks algo (enumerate_paths fs algo paths).1 io cobs js i b =
        js.map (fun _ => []) := by
    intro js
    induction js with
    | nil => intro i b; rfl
    | cons j rest ih =>
      intro i b
      simp only [runTasks, hash_task_unsupported algo _ 32 j (io j) (cobs i) b h,
        List.map_cons, ih]
  constructor
  · show (runTasks algo _ io cobs _ 0 0).flatten = []
    rw [key]
    simp
  · show _ ++ (runTasks algo _ io cobs _ 0 0).flatten = _
    rw [key]
    simp

/-- C3 (witness): the amended theorem at the counterexample's input —
`"bogus"` is not a guaranteed algorithm, the tasks emit nothing, and the
queue carries exactly the enumeration Failure. -/
theorem C3_unsupported_no_start_validation_witness :
    (calculate_hash fsMissingPlusFile ioHello (fun _ _ => false) "bogus"
        ["x", "f"]).taskEvents.flatten = []
    ∧ (calculate_hash fsMissingPlusFile ioHello (fun _ _ => false) "bogus"
        ["x", "f"]).allEvents =
      (calculate_hash fsMissingPlusFile ioHello (fun _ _ => false) "bogus"
        ["x", "f"]).enumEvents :=
  C3_unsupported_no_start_validation fsMissingPlusFile ioHello (fun _ _ => false)
    "bogus" ["x", "f"] (by decide)

/-! ### C4: the exported plain-text report -/

/-- C4: `results_to_txt` evaluated at the claim's corner cases. When the
results list is empty the local variable `output` is never assigned, so the
function raises `UnboundLocalError` instead of returning a report with the
Results section omitted (both with and without errors); and when the
Results section is present, its last `<path>:<value>:<algorithm>` line is
followed by a stray space, so the section is not byte-for-byte the
specified shape. -/
theorem C4_report_evaluation :
    results_to_txt [] [] "T" = Except.error "UnboundLocalError"
    ∧ results_to_txt [] [⟨"f", "m", "sha256"⟩] "T" = Except.error "UnboundLocalError"
    ∧ results_to_txt [⟨"a", "h", "sha256"⟩] [⟨"f", "m", "sha256"⟩] "T" =
        Except.ok ("Results - Saved on T:\n----------------------------------------\na:h:sha256 \n\nErrors - Saved on T:\n----------------------------------------\nf:m:sha256\n")
    ∧ results_to_txt [⟨"a", "h", "sha256"⟩] [] "T" =
        Except.ok ("Results - Saved on T:\n----------------------------------------\na:h:sha256 \n") := by
  refine ⟨rfl, rfl, rfl, rfl⟩

end QuickFileHasher
